import Mathlib

/-!
Verification of the markdown-to-block converter of the Blog_repo front-end.

The converter lives in `src/app/createBlog/page.tsx` (`parseFormattedText`,
`parseContentToJSON`) and its reverse direction in `src/app/update/[id]/page.tsx`
(the `rawContent ?? text ?? ""` / `join("\n\n")` reconstruction).  JS strings are
embedded as `List Char`, and the line-oriented parser loop as an explicit state
machine folded over the list of lines.  The hand-rolled regular expressions of
the source are embedded as direct scanners with the same match semantics
(leftmost match, greedy character classes, restart after each match at
`index + length`, advance by one character after a failed attempt); scanners
whose recursion is not structural take an explicit fuel argument initialised to
the string length, which bounds the number of single-character advances.
-/

namespace Blog

/-- JS strings, embedded as lists of characters. -/
abbrev Str := List Char

/-- Coerce a Lean string literal to the embedding. -/
def str (s : String) : Str := s.data

/-- The backtick character (code-span and fence delimiter in the source regexes). -/
def btick : Char := Char.ofNat 96

/-- JS `\s` on the ASCII range (space, tab, newline, carriage return,
vertical tab, form feed); also the character class of `String.prototype.trim`. -/
def isWs (c : Char) : Bool :=
  c = ' ' || c = '\t' || c = '\n' || c = '\r' || c = Char.ofNat 11 || c = Char.ofNat 12

/-- JS `String.prototype.trim`. -/
def jsTrim (s : Str) : Str :=
  ((s.dropWhile isWs).reverse.dropWhile isWs).reverse

/-- JS `String.prototype.split` with a single-character separator:
`"".split(c) = [""]`, `"a|b".split('|') = ["a","b"]`. -/
def jsSplit (c : Char) : Str → List Str
  | [] => [[]]
  | x :: xs =>
    let r := jsSplit c xs
    if x = c then [] :: r
    else
      match r with
      | h :: t => (x :: h) :: t
      | [] => [[x]]

/-- JS `String.prototype.substring(a, b)`: swaps the bounds when `a > b`
and clamps them to the string length. -/
def jsSubstring (s : Str) (a b : Nat) : Str :=
  (s.take (max a b)).drop (min a b)

/-- JS `Array.prototype.join(sep)`. -/
def joinWith (sep : Str) : List Str → Str
  | [] => []
  | [x] => x
  | x :: y :: xs => x ++ sep ++ joinWith sep (y :: xs)

/-- JS `\w`, i.e. `[A-Za-z0-9_]`. -/
def isWordChar (c : Char) : Bool :=
  c.isAlpha || c.isDigit || c = '_'

/-! ## Inline formatting: `parseFormattedText` (createBlog/page.tsx, lines 121–192) -/

/-- The `link` attribute of a span (`{ url, text }` in the source). -/
structure LinkData where
  url : Str
  text : Str
deriving DecidableEq, Repr

/-- `FormattedText` of the source: a span of text with optional style flags.
Absent optional flags are embedded as `false` / `none`. -/
structure FormattedText where
  text : Str
  bold : Bool := false
  italic : Bool := false
  code : Bool := false
  link : Option LinkData := none
deriving DecidableEq, Repr

/-- The four inline pattern tags of the `patterns` array in the source. -/
inductive MType | bold | italic | code | link
deriving DecidableEq, Repr

/-- One regex match as collected into the `matches` array of the source:
start offset, full match length, first capture group, pattern tag, and the
second capture group for links. -/
structure FMatch where
  index : Nat
  length : Nat
  text : Str
  type : MType
  url : Option Str := none
deriving DecidableEq, Repr

/-- All matches of `/\*\*([^*]+)\*\*/g`: `**`, a nonempty run of non-`*`
characters (the capture), then `**`.  `i` is the offset of `s` in the whole
input; the fuel bounds the single-character advances of the scan. -/
def findBoldAux : Nat → Nat → Str → List FMatch
  | 0, _, _ => []
  | _ + 1, _, [] => []
  | fuel + 1, i, c :: cs =>
    if c = '*' then
      match cs with
      | c2 :: cs2 =>
        if c2 = '*' then
          let body := cs2.takeWhile (fun x => x ≠ '*')
          match body, cs2.dropWhile (fun x => x ≠ '*') with
          | _ :: _, _ :: d2 :: tail =>
            if d2 = '*' then
              ⟨i, body.length + 4, body, .bold, none⟩ ::
                findBoldAux fuel (i + body.length + 4) tail
            else findBoldAux fuel (i + 1) cs
          | _, _ => findBoldAux fuel (i + 1) cs
        else findBoldAux fuel (i + 1) cs
      | [] => []
    else findBoldAux fuel (i + 1) cs

/-- All matches of `/\*([^*]+)\*/g`. -/
def findItalicAux : Nat → Nat → Str → List FMatch
  | 0, _, _ => []
  | _ + 1, _, [] => []
  | fuel + 1, i, c :: cs =>
    if c = '*' then
      let body := cs.takeWhile (fun x => x ≠ '*')
      match body, cs.dropWhile (fun x => x ≠ '*') with
      | _ :: _, _ :: tail =>
        ⟨i, body.length + 2, body, .italic, none⟩ ::
          findItalicAux fuel (i + body.length + 2) tail
      | _, _ => findItalicAux fuel (i + 1) cs
    else findItalicAux fuel (i + 1) cs

/-- All matches of ``/`([^`]+)`/g``. -/
def findCodeAux : Nat → Nat → Str → List FMatch
  | 0, _, _ => []
  | _ + 1, _, [] => []
  | fuel + 1, i, c :: cs =>
    if c = btick then
      let body := cs.takeWhile (fun x => x ≠ btick)
      match body, cs.dropWhile (fun x => x ≠ btick) with
      | _ :: _, _ :: tail =>
        ⟨i, body.length + 2, body, .code, none⟩ ::
          findCodeAux fuel (i + body.length + 2) tail
      | _, _ => findCodeAux fuel (i + 1) cs
    else findCodeAux fuel (i + 1) cs

/-- All matches of `/\[([^\]]+)\]\(([^)]+)\)/g`: `[`, nonempty run of
non-`]` (capture 1), `](`, nonempty run of non-`)` (capture 2), `)`. -/
def findLinkAux : Nat → Nat → Str → List FMatch
  | 0, _, _ => []
  | _ + 1, _, [] => []
  | fuel + 1, i, c :: cs =>
    if c = '[' then
      let body := cs.takeWhile (fun x => x ≠ ']')
      match body, cs.dropWhile (fun x => x ≠ ']') with
      | _ :: _, _ :: rest =>
        (match rest with
         | p :: rest2 =>
           if p = '(' then
             let url := rest2.takeWhile (fun x => x ≠ ')')
             match url, rest2.dropWhile (fun x => x ≠ ')') with
             | _ :: _, _ :: tail =>
               ⟨i, body.length + url.length + 4, body, .link, some url⟩ ::
                 findLinkAux fuel (i + body.length + url.length + 4) tail
             | _, _ => findLinkAux fuel (i + 1) cs
           else findLinkAux fuel (i + 1) cs
         | [] => findLinkAux fuel (i + 1) cs)
      | _, _ => findLinkAux fuel (i + 1) cs
    else findLinkAux fuel (i + 1) cs

/-- The `matches` array: every match of every pattern, in pattern order
(bold, italic, code, link), each run over the whole string. -/
def collectMatches (s : Str) : List FMatch :=
  findBoldAux s.length 0 s ++ findItalicAux s.length 0 s ++
    findCodeAux s.length 0 s ++ findLinkAux s.length 0 s

/-- Insert a match into an index-sorted list after all entries whose index is
not greater, preserving arrival order among equal indices. -/
def insertByIndex (m : FMatch) : List FMatch → List FMatch
  | [] => [m]
  | x :: xs => if x.index ≤ m.index then x :: insertByIndex m xs else m :: x :: xs

/-- JS `matches.sort((a, b) => a.index - b.index)`: a stable sort ascending
by start offset. -/
def sortByIndex (ms : List FMatch) : List FMatch :=
  ms.foldl (fun acc m => insertByIndex m acc) []

/-- Build the formatted span pushed for one match (the `switch` in the source). -/
def spanOfMatch (m : FMatch) : FormattedText :=
  match m.type with
  | .bold => { text := m.text, bold := true }
  | .italic => { text := m.text, italic := true }
  | .code => { text := m.text, code := true }
  | .link => { text := m.text, link := some ⟨m.url.getD [], m.text⟩ }

/-- The plain-text span emitted before a match when the match starts past the
current position (`if (match.index > currentIndex) ...` in the source). -/
def gapSpans (text : Str) (currentIndex : Nat) (m : FMatch) : List FormattedText :=
  if m.index > currentIndex then
    let plain := jsSubstring text currentIndex m.index
    if plain ≠ [] then [{ text := plain }] else []
  else []

/-- The `matches.forEach` walk plus the trailing-text push of the source,
threading `currentIndex`. -/
def walkMatches (text : Str) : List FMatch → Nat → List FormattedText
  | [], currentIndex =>
    if currentIndex < text.length then
      let remaining := text.drop currentIndex
      if remaining ≠ [] then [{ text := remaining }] else []
    else []
  | m :: ms, currentIndex =>
    gapSpans text currentIndex m ++
      (spanOfMatch m :: walkMatches text ms (m.index + m.length))

/-- `parseFormattedText` (createBlog/page.tsx): collect all inline matches,
sort by offset, emit gap and match spans, and fall back to a single
whole-input span when nothing was pushed. -/
def parseFormattedText (text : Str) : List FormattedText :=
  let parts := walkMatches text (sortByIndex (collectMatches text)) 0
  if parts.length > 0 then parts else [{ text := text }]

/-- Concatenation of the `text` fields of a span list, in order. -/
def concatTexts : List FormattedText → Str
  | [] => []
  | p :: ps => p.text ++ concatTexts ps

/-! ## Block parsing: `parseContentToJSON` (createBlog/page.tsx, lines 194–414) -/

/-- The `type` tag of a `ContentBlock`. -/
inductive BType | text | heading | image | table | list | code | blockquote
deriving DecidableEq, Repr

/-- `ContentBlock` of the source; TS optional fields are embedded as `Option`. -/
structure ContentBlock where
  type : BType
  level : Option Nat := none
  text : Option Str := none
  rawContent : Option Str := none
  formattedContent : Option (List FormattedText) := none
  alt : Option Str := none
  src : Option Str := none
  headers : Option (List Str) := none
  rows : Option (List (List Str)) := none
  items : Option (List Str) := none
  language : Option Str := none
deriving DecidableEq, Repr

/-- The mutable locals of the `parseContentToJSON` loop. -/
structure PState where
  blocks : List ContentBlock
  currentBlock : Option ContentBlock
  tableRows : List (List Str)
  inTable : Bool
  inCodeBlock : Bool
  codeContent : Str
  codeLanguage : Str
  listItems : List Str
  inList : Bool
deriving DecidableEq, Repr

/-- The locals as initialised at the top of `parseContentToJSON`. -/
def initState : PState :=
  { blocks := [], currentBlock := none, tableRows := [], inTable := false,
    inCodeBlock := false, codeContent := [], codeLanguage := [],
    listItems := [], inList := false }

/-- `/^```(\w+)?$/` on the trimmed line, returning the language tag with the
source's `codeBlockMatch[1] || ''` default applied. -/
def fenceMatch (t : Str) : Option Str :=
  match t with
  | a :: b :: c :: rest =>
    if a = btick ∧ b = btick ∧ c = btick then
      if rest = [] then some []
      else if rest.all isWordChar then some rest else none
    else none
  | _ => none

/-- `/^>\s*(.+)/`: leading `>`, greedy whitespace skip, nonempty capture.
When everything after `>` is whitespace the greedy `\s*` backtracks one
character so that `.+` captures it (irrelevant on trimmed lines). -/
def blockquoteMatch (t : Str) : Option Str :=
  match t with
  | g :: rest =>
    if g = '>' then
      let r := rest.dropWhile isWs
      if r ≠ [] then some r
      else if rest ≠ [] then some [rest.getLastD ' ']
      else none
    else none
  | [] => none

/-- First match of the unanchored `/!\[([^\]]*)\]\(([^)]+)\)/` anywhere in the
line: `![`, possibly-empty alt capture, `](`, nonempty src capture, `)`. -/
def imageMatchAux : Nat → Str → Option (Str × Str)
  | 0, _ => none
  | _ + 1, [] => none
  | fuel + 1, c :: cs =>
    (if c = '!' then
      match cs with
      | b :: cs2 =>
        if b = '[' then
          let alt := cs2.takeWhile (fun x => x ≠ ']')
          match cs2.dropWhile (fun x => x ≠ ']') with
          | _ :: p :: rest =>
            if p = '(' then
              let srcTxt := rest.takeWhile (fun x => x ≠ ')')
              match srcTxt, rest.dropWhile (fun x => x ≠ ')') with
              | _ :: _, _ :: _ => some (alt, srcTxt)
              | _, _ => imageMatchAux fuel cs
            else imageMatchAux fuel cs
          | _ => imageMatchAux fuel cs
        else imageMatchAux fuel cs
      | [] => none
    else imageMatchAux fuel cs)

/-- `trimmedLine.match(/!\[([^\]]*)\]\(([^)]+)\)/)`, yielding `(alt, src)`. -/
def imageMatch (t : Str) : Option (Str × Str) :=
  imageMatchAux t.length t

/-- `/^[\s\-\|]+$/`: the line consists only of whitespace, `-` and `|`. -/
def isSeparatorRow (t : Str) : Bool :=
  t ≠ [] && t.all (fun c => isWs c || c = '-' || c = '|')

/-- The table-row test of the source:
`trimmedLine.includes('|') && !trimmedLine.match(/^[\s\-\|]+$/)`. -/
def isTableLine (t : Str) : Bool :=
  t.contains '|' && !isSeparatorRow t

/-- `trimmedLine.split('|').map(cell => cell.trim()).filter(cell => cell)`. -/
def tableCells (t : Str) : List Str :=
  ((jsSplit '|' t).map jsTrim).filter (fun c => c ≠ [])

/-- `/^[-*+]\s+(.+)/`: a bullet character, at least one whitespace character,
then a nonempty capture (with the same degenerate backtracking case as
`blockquoteMatch` when the tail is all whitespace). -/
def listItemMatch (t : Str) : Option Str :=
  match t with
  | c :: w :: rest =>
    if (c = '-' ∨ c = '*' ∨ c = '+') ∧ isWs w then
      let r := (w :: rest).dropWhile isWs
      if r ≠ [] then some r
      else if rest ≠ [] then some [rest.getLastD ' ']
      else none
    else none
  | _ => none

/-- `/^(#{1,6})\s+(.+)/`: one to six `#`, at least one whitespace character,
then a nonempty capture; returns (number of `#`, capture). -/
def headingMatch (t : Str) : Option (Nat × Str) :=
  let n := (t.takeWhile (fun c => c = '#')).length
  if 1 ≤ n ∧ n ≤ 6 then
    match t.drop n with
    | w :: rest =>
      if isWs w then
        let r := (w :: rest).dropWhile isWs
        if r ≠ [] then some (n, r)
        else if rest ≠ [] then some (n, [rest.getLastD ' '])
        else none
      else none
    | [] => none
  else none

/-- The `code` block pushed when a fence closes:
`rawContent` is ```` ``` ```` + language + newline + body + newline + ```` ``` ````. -/
def mkCodeBlock (lang content : Str) : ContentBlock :=
  { type := .code,
    rawContent := some (str "```" ++ lang ++ '\n' :: content ++ '\n' :: str "```"),
    text := some content,
    language := some lang }

/-- `listItems.map(item => `- ${item}`).join('\n')`. -/
def listRaw (items : List Str) : Str :=
  joinWith ['\n'] (items.map (fun it => '-' :: ' ' :: it))

/-- The `list` block pushed when a list accumulator flushes. -/
def mkListBlock (items : List Str) : ContentBlock :=
  { type := .list, items := some items, rawContent := some (listRaw items) }

/-- `tableRows.map(row => `| ${row.join(' | ')} |`).join('\n')`. -/
def tableRaw (rows : List (List Str)) : Str :=
  joinWith ['\n'] (rows.map (fun row => '|' :: ' ' :: joinWith (str " | ") row ++ str " |"))

/-- The `table` block pushed when a table accumulator flushes: the first
accumulated row becomes `headers`, the rest (`tableRows.slice(1)`) become `rows`. -/
def mkTableBlock (tableRows : List (List Str)) : ContentBlock :=
  { type := .table,
    headers := some (tableRows.headD []),
    rows := some tableRows.tail,
    rawContent := some (tableRaw tableRows) }

/-- The `blockquote` block pushed for a `> ...` line. -/
def mkQuoteBlock (bq t : Str) : ContentBlock :=
  { type := .blockquote, text := some bq, rawContent := some t,
    formattedContent := some (parseFormattedText bq) }

/-- The `heading` block pushed for a `#`-line. -/
def mkHeadingBlock (n : Nat) (txt t : Str) : ContentBlock :=
  { type := .heading, level := some n, text := some txt, rawContent := some t,
    formattedContent := some (parseFormattedText txt) }

/-- The fresh paragraph accumulator created for a plain line. -/
def mkTextBlock (t : Str) : ContentBlock :=
  { type := .text, text := some t, rawContent := some t,
    formattedContent := some (parseFormattedText t) }

/-- Appending a plain line to the open paragraph accumulator: `text` and
`rawContent` get `'\n' + trimmedLine`, and `formattedContent` is recomputed
from the whole updated text. -/
def appendText (cb : ContentBlock) (t : Str) : ContentBlock :=
  let newText := cb.text.getD [] ++ '\n' :: t
  { cb with text := some newText,
            rawContent := some (cb.rawContent.getD [] ++ '\n' :: t),
            formattedContent := some (parseFormattedText newText) }

/-- `if (currentBlock) { blocks.push(currentBlock); currentBlock = null; }`. -/
def flushCurrent (s : PState) : PState :=
  match s.currentBlock with
  | some b => { s with blocks := s.blocks ++ [b], currentBlock := none }
  | none => s

/-- The mid-parse list flush (`if (inList) { push list; listItems = []; inList = false }`);
unlike the end-of-input flush it has no emptiness guard. -/
def flushListNow (s : PState) : PState :=
  if s.inList then
    { s with blocks := s.blocks ++ [mkListBlock s.listItems],
             listItems := [], inList := false }
  else s

/-- The `else if (inTable)` table flush when a non-table line is met:
emits the table only when at least one row accumulated, and always closes
the accumulator.  The line is then reprocessed (fall-through, no `continue`). -/
def closeTable (s : PState) : PState :=
  if s.inTable then
    if s.tableRows ≠ [] then
      { s with blocks := s.blocks ++ [mkTableBlock s.tableRows],
               inTable := false, tableRows := [] }
    else { s with inTable := false, tableRows := [] }
  else s

/-- One iteration of the `for` loop of `parseContentToJSON` on one line,
mirroring the source's `continue`-based control flow as nested branches. -/
def step (s : PState) (line : Str) : PState :=
  let t := jsTrim line
  match fenceMatch t with
  | some lang =>
    if s.inCodeBlock = false then
      let s1 := flushCurrent s
      { s1 with inCodeBlock := true, codeLanguage := lang, codeContent := [] }
    else
      { s with blocks := s.blocks ++ [mkCodeBlock s.codeLanguage s.codeContent],
               inCodeBlock := false, codeContent := [], codeLanguage := [] }
  | none =>
    if s.inCodeBlock then
      { s with codeContent :=
          (if s.codeContent ≠ [] then s.codeContent ++ ['\n'] else []) ++ line }
    else if t = [] ∧ s.currentBlock = none ∧ s.inList = false ∧ s.inTable = false then
      s
    else
      match blockquoteMatch t with
      | some bq =>
        let s1 := flushListNow (flushCurrent s)
        { s1 with blocks := s1.blocks ++ [mkQuoteBlock bq t] }
      | none =>
        match imageMatch t with
        | some (alt, srcTxt) =>
          let s1 := flushListNow (flushCurrent s)
          { s1 with blocks := s1.blocks ++
              [{ type := .image, alt := some alt, src := some srcTxt,
                 rawContent := some t }] }
        | none =>
          if isTableLine t then
            let s1 :=
              if s.inTable = false then
                { flushListNow (flushCurrent s) with inTable := true, tableRows := [] }
              else s
            let cells := tableCells t
            if cells ≠ [] then { s1 with tableRows := s1.tableRows ++ [cells] } else s1
          else
            let s1 := closeTable s
            match listItemMatch t with
            | some item =>
              let s2 := flushCurrent s1
              let s3 := if s2.inList = false then
                  { s2 with inList := true, listItems := [] }
                else s2
              { s3 with listItems := s3.listItems ++ [item] }
            | none =>
              if s1.inList = true ∧ t ≠ [] then
                if s1.listItems ≠ [] then
                  { s1 with listItems :=
                      s1.listItems.dropLast ++ [s1.listItems.getLastD [] ++ ' ' :: t] }
                else s1
              else
                let s2 := flushListNow s1
                match headingMatch t with
                | some (n, txt) =>
                  let s3 := flushCurrent s2
                  { s3 with blocks := s3.blocks ++ [mkHeadingBlock n txt t] }
                | none =>
                  if t ≠ [] then
                    match s2.currentBlock with
                    | none => { s2 with currentBlock := some (mkTextBlock t) }
                    | some cb => { s2 with currentBlock := some (appendText cb t) }
                  else flushCurrent s2

/-- The whole `for` loop: fold `step` over the lines. -/
def runLines (s : PState) : List Str → PState
  | [] => s
  | l :: ls => runLines (step s l) ls

/-- The flushes after the loop: pending paragraph, then pending table
(if it gathered rows), then pending list (if it gathered items).  An
unterminated code fence is not flushed. -/
def finalize (s : PState) : List ContentBlock :=
  (s.blocks ++
    (match s.currentBlock with | some b => [b] | none => []) ++
    (if s.inTable ∧ s.tableRows ≠ [] then [mkTableBlock s.tableRows] else [])) ++
    (if s.inList ∧ s.listItems ≠ [] then [mkListBlock s.listItems] else [])

/-- `parseContentToJSON` (createBlog/page.tsx): empty input short of any
line yields `[]`; otherwise split on newlines, run the loop, flush. -/
def parseContentToJSON (md : Str) : List ContentBlock :=
  if md = [] then [] else finalize (runLines initState (jsSplit '\n' md))

/-- The block-to-markdown reconstruction of the update form
(update/[id]/page.tsx, `fetchBlog`): per block `rawContent ?? text ?? ""`,
joined with `"\n\n"`. -/
def parseBlocksToMarkdown (blocks : List ContentBlock) : Str :=
  joinWith (str "\n\n") (blocks.map (fun b => b.rawContent.getD (b.text.getD [])))

/-- The "two separate invocations" of `parseContentToJSON` on the same input. -/
def runTwice (md : Str) : List ContentBlock × List ContentBlock :=
  (parseContentToJSON md, parseContentToJSON md)

/-! ## Helper lemmas -/

/-- When the four inline scanners find no match, `parseFormattedText` falls
through to the single whole-input span. -/
lemma pft_no_matches (s : Str) (h : collectMatches s = []) :
    parseFormattedText s = [{ text := s }] := by
  unfold parseFormattedText
  rw [h]
  cases s with
  | nil => simp [sortByIndex, walkMatches]
  | cons c cs => simp [sortByIndex, walkMatches]

/-- A block has its `rawContent` field populated. -/
def rawOk (b : ContentBlock) : Bool := b.rawContent.isSome

/-- The open paragraph accumulator, when present, has `rawContent` populated. -/
def curOk : Option ContentBlock → Bool
  | some b => rawOk b
  | none => true

/-- Loop invariant: every emitted block and the open paragraph accumulator
carry a populated `rawContent`. -/
def invB (s : PState) : Bool := s.blocks.all rawOk && curOk s.currentBlock

lemma invB_blocks (s : PState) (h : invB s = true) : s.blocks.all rawOk = true := by
  simp only [invB, Bool.and_eq_true] at h
  exact h.1

lemma invB_cur (s : PState) (h : invB s = true) : curOk s.currentBlock = true := by
  simp only [invB, Bool.and_eq_true] at h
  exact h.2

lemma invB_push (s : PState) (b : ContentBlock) (h : invB s = true)
    (hb : rawOk b = true) : invB { s with blocks := s.blocks ++ [b] } = true := by
  show ((s.blocks ++ [b]).all rawOk && curOk s.currentBlock) = true
  rw [List.all_append]
  simp only [List.all_cons, List.all_nil, invB_blocks s h, invB_cur s h, hb,
    Bool.and_true, Bool.true_and, Bool.and_self]

lemma invB_setCurrent (s : PState) (b : ContentBlock) (h : invB s = true)
    (hb : rawOk b = true) : invB { s with currentBlock := some b } = true := by
  show (s.blocks.all rawOk && curOk (some b)) = true
  simp only [curOk, invB_blocks s h, hb, Bool.and_self]

lemma invB_flushCurrent (s : PState) (h : invB s = true) :
    invB (flushCurrent s) = true := by
  unfold flushCurrent
  cases hcur : s.currentBlock with
  | none => exact h
  | some cb =>
    show ((s.blocks ++ [cb]).all rawOk && curOk none) = true
    have h2 := invB_cur s h
    rw [hcur] at h2
    simp only [curOk] at h2
    rw [List.all_append]
    simp only [List.all_cons, List.all_nil, invB_blocks s h, h2, curOk,
      Bool.and_true, Bool.true_and, Bool.and_self]

lemma invB_flushListNow (s : PState) (h : invB s = true) :
    invB (flushListNow s) = true := by
  unfold flushListNow
  split
  · show ((s.blocks ++ [mkListBlock s.listItems]).all rawOk && curOk s.currentBlock) = true
    rw [List.all_append]
    simp only [List.all_cons, List.all_nil, invB_blocks s h, invB_cur s h,
      Bool.and_true, Bool.true_and, Bool.and_self]
    rfl
  · exact h

lemma invB_closeTable (s : PState) (h : invB s = true) :
    invB (closeTable s) = true := by
  unfold closeTable
  split
  · split
    · show ((s.blocks ++ [mkTableBlock s.tableRows]).all rawOk && curOk s.currentBlock) = true
      rw [List.all_append]
      simp only [List.all_cons, List.all_nil, invB_blocks s h, invB_cur s h,
        Bool.and_true, Bool.true_and, Bool.and_self]
      rfl
    · exact h
  · exact h

lemma invB_step (s : PState) (l : Str) (h : invB s = true) :
    invB (step s l) = true := by
  have hA : invB (flushListNow (flushCurrent s)) = true :=
    invB_flushListNow _ (invB_flushCurrent _ h)
  have hT : invB (closeTable s) = true := invB_closeTable s h
  have hTC : invB (flushCurrent (closeTable s)) = true := invB_flushCurrent _ hT
  have hTL : invB (flushListNow (closeTable s)) = true := invB_flushListNow _ hT
  have hTLC : invB (flushCurrent (flushListNow (closeTable s))) = true :=
    invB_flushCurrent _ hTL
  simp only [step]
  repeat' split
  all_goals first
    | exact h
    | exact invB_flushCurrent s h
    | exact hA
    | exact hT
    | exact hTC
    | exact hTL
    | exact hTLC
    | exact invB_push _ _ h rfl
    | exact invB_push _ _ hA rfl
    | exact invB_push _ _ hTLC rfl
    | exact invB_setCurrent _ _ hTL rfl

lemma invB_runLines (ls : List Str) (s : PState) (h : invB s = true) :
    invB (runLines s ls) = true := by
  induction ls generalizing s with
  | nil => exact h
  | cons l ls ih => exact ih _ (invB_step s l h)

lemma finalize_rawContent (s : PState) (h : invB s = true) :
    ∀ b ∈ finalize s, b.rawContent.isSome = true := by
  have hb : ∀ b ∈ s.blocks, rawOk b = true := by
    have := (Bool.and_eq_true _ _).mp h
    exact fun b hb => List.all_eq_true.mp this.1 b hb
  have hc : curOk s.currentBlock = true := ((Bool.and_eq_true _ _).mp h).2
  intro b hmem
  unfold finalize at hmem
  rcases List.mem_append.mp hmem with h1 | h1
  · rcases List.mem_append.mp h1 with h2 | h2
    · rcases List.mem_append.mp h2 with h3 | h3
      · exact hb b h3
      · cases hcur : s.currentBlock with
        | none => rw [hcur] at h3; simp at h3
        | some cb =>
          rw [hcur] at h3
          simp at h3
          subst h3
          rw [hcur] at hc
          simpa [curOk, rawOk] using hc
    · split at h2
      · simp at h2
        subst h2
        simp [mkTableBlock]
      · simp at h2
  · split at h1
    · simp at h1
      subst h1
      simp [mkListBlock]
    · simp at h1

/-- Every block `parseContentToJSON` returns has `rawContent` populated. -/
lemma parse_raw_isSome (md : Str) (b : ContentBlock)
    (hb : b ∈ parseContentToJSON md) : b.rawContent.isSome = true := by
  unfold parseContentToJSON at hb
  split at hb
  · simp at hb
  · exact finalize_rawContent _
      (invB_runLines (jsSplit '\n' md) initState (by decide)) b hb

lemma runLines_append (s : PState) (a b : List Str) :
    runLines s (a ++ b) = runLines (runLines s a) b := by
  induction a generalizing s with
  | nil => rfl
  | cons l ls ih => simp [runLines, ih]

/-- A line failing the fence regex while inside a fence only grows the code
buffer. -/
lemma step_inCode (s : PState) (l : Str) (hc : s.inCodeBlock = true)
    (hf : fenceMatch (jsTrim l) = none) :
    step s l = { s with codeContent :=
      (if s.codeContent ≠ [] then s.codeContent ++ ['\n'] else []) ++ l } := by
  simp only [step]
  rw [hf]
  simp [hc]

/-- Inside a fence, a run of non-fence lines leaves every field but the code
buffer unchanged. -/
lemma runLines_inCode (ls : List Str) (s : PState) (hc : s.inCodeBlock = true)
    (h : ∀ l ∈ ls, fenceMatch (jsTrim l) = none) :
    ∃ c, runLines s ls = { s with codeContent := c } := by
  induction ls generalizing s with
  | nil => exact ⟨s.codeContent, rfl⟩
  | cons l ls ih =>
    rw [runLines, step_inCode s l hc (h l (by simp))]
    obtain ⟨c, hc2⟩ := ih { s with codeContent :=
        (if s.codeContent ≠ [] then s.codeContent ++ ['\n'] else []) ++ l }
      hc (fun x hx => h x (by simp [hx]))
    exact ⟨c, by rw [hc2]⟩

/-- The end-of-input flush never reads the code buffer. -/
lemma finalize_ignores_code (s : PState) (c : Str) :
    finalize { s with codeContent := c } = finalize s := rfl

/-- Flushing the open paragraph first does not change the final block list. -/
lemma finalize_flushCurrent (s : PState) :
    finalize (flushCurrent s) = finalize s := by
  cases hcur : s.currentBlock with
  | none => simp [finalize, flushCurrent, hcur]
  | some cb => simp [finalize, flushCurrent, hcur]

/-! ## The claims -/

/-- C1 (counterexample): on the input `**b**`, concatenating the `text`
fields of the spans returned by `parseFormattedText` does not reproduce the
input — the `**` delimiters are stripped (the result is `bb*`, the doubled
capture coming from the overlapping bold and italic matches). -/
theorem spans_concat_strips_delimiters :
    concatTexts (parseFormattedText (str "**b**")) ≠ str "**b**" := by decide

/-- C1 (amended): for every input string in which none of the four inline
patterns matches, concatenating the `text` fields of the spans returned by
`parseFormattedText`, in order, reproduces the input exactly; when a pattern
does match, its delimiters are stripped from the span text, so the
concatenation omits them. -/
theorem spans_concat_noInlineMatch (s : Str) (h : collectMatches s = []) :
    concatTexts (parseFormattedText s) = s := by
  rw [pft_no_matches s h]
  simp [concatTexts]

theorem spans_concat_noInlineMatch_witness :
    collectMatches (str "plain text") = [] ∧
    concatTexts (parseFormattedText (str "plain text")) = str "plain text" :=
  ⟨by decide, spans_concat_noInlineMatch (str "plain text") (by decide)⟩

/-- C2 (counterexample): the list input `* a` produces a block whose
`rawContent` is `- a`, not the original source `* a` — the original bullet
character is not preserved, refuting character-for-character preservation. -/
theorem rawContent_normalizes_bullet :
    (parseContentToJSON (str "* a")).map (fun b => b.rawContent) =
      [some (str "- a")] ∧ str "- a" ≠ str "* a" := by decide

/-- C2 (amended): every block emitted by `parseContentToJSON` carries a
populated `rawContent` field, but it is a normalized reconstruction of the
block's source (lines trimmed, list bullets rewritten to `-`, table rows
re-joined from trimmed cells, separator rows dropped), not the original
markdown character for character. -/
theorem blocks_rawContent_populated (md : Str) (b : ContentBlock)
    (hb : b ∈ parseContentToJSON md) : b.rawContent.isSome = true :=
  parse_raw_isSome md b hb

theorem blocks_rawContent_populated_witness :
    mkTextBlock (str "hello") ∈ parseContentToJSON (str "hello") ∧
    (mkTextBlock (str "hello")).rawContent.isSome = true :=
  ⟨by decide, blocks_rawContent_populated (str "hello") _ (by decide)⟩

/-- C3: an input whose lines are `pre`, then an opening fence (the fence
toggle is off after `pre`), then lines none of which match the fence
delimiter, parses to exactly the end-of-input flush of the state reached
after `pre`: no `code` block is emitted for the unterminated fence, the
buffered fence content (`rest`) is dropped (the result does not depend on
it), and all blocks parsed before the opener are still emitted. -/
theorem unterminated_fence_dropped (md : Str) (pre rest : List Str)
    (f lang : Str)
    (hmd : md ≠ [])
    (hsplit : jsSplit '\n' md = pre ++ f :: rest)
    (hf : fenceMatch (jsTrim f) = some lang)
    (hpre : (runLines initState pre).inCodeBlock = false)
    (hrest : ∀ l ∈ rest, fenceMatch (jsTrim l) = none) :
    parseContentToJSON md = finalize (runLines initState pre) := by
  unfold parseContentToJSON
  rw [if_neg hmd, hsplit, runLines_append]
  rw [runLines]
  have hstep : step (runLines initState pre) f =
      { flushCurrent (runLines initState pre) with
          inCodeBlock := true, codeLanguage := lang, codeContent := [] } := by
    simp only [step]
    rw [hf]
    simp [hpre]
  rw [hstep]
  obtain ⟨c, hc⟩ := runLines_inCode rest
    { flushCurrent (runLines initState pre) with
        inCodeBlock := true, codeLanguage := lang, codeContent := [] } rfl hrest
  rw [hc]
  exact finalize_flushCurrent (runLines initState pre)

theorem unterminated_fence_dropped_witness :
    str "```js\ncode here" ≠ [] ∧
    jsSplit '\n' (str "```js\ncode here") = [] ++ str "```js" :: [str "code here"] ∧
    fenceMatch (jsTrim (str "```js")) = some (str "js") ∧
    (runLines initState []).inCodeBlock = false ∧
    parseContentToJSON (str "```js\ncode here") = finalize (runLines initState []) :=
  ⟨by decide, by decide, by decide, by decide,
   unterminated_fence_dropped (str "```js\ncode here") [] [str "code here"]
     (str "```js") (str "js") (by decide) (by decide) (by decide) (by decide)
     (by intro l hl; simp at hl; subst hl; decide)⟩

/-- C4: while a list accumulator is open (ordinary line mode, table closed),
a line whose trimmed form is non-empty and matches none of the fence,
blockquote, image, table-row or list-item patterns is appended to the
previous list item joined by a single space — no block is emitted and no
paragraph accumulator is started. -/
theorem list_continuation_soft_wrap (s : PState) (line : Str)
    (itemsInit : List Str) (lastItem : Str)
    (hcode : s.inCodeBlock = false)
    (htab : s.inTable = false)
    (hlist : s.inList = true)
    (hitems : s.listItems = itemsInit ++ [lastItem])
    (ht : jsTrim line ≠ [])
    (hf : fenceMatch (jsTrim line) = none)
    (hbq : blockquoteMatch (jsTrim line) = none)
    (him : imageMatch (jsTrim line) = none)
    (htl : isTableLine (jsTrim line) = false)
    (hli : listItemMatch (jsTrim line) = none) :
    step s line = { s with listItems := itemsInit ++ [lastItem ++ ' ' :: jsTrim line] } := by
  simp [step, hf, hbq, him, hli, hcode, htab, hlist, htl, ht, hitems, closeTable]

theorem list_continuation_soft_wrap_witness :
    ({ initState with inList := true, listItems := [str "a"] } : PState).inList = true ∧
    step { initState with inList := true, listItems := [str "a"] } (str "more words") =
      { { initState with inList := true, listItems := [str "a"] } with
          listItems := [str "a" ++ ' ' :: str "more words"] } :=
  ⟨rfl,
   list_continuation_soft_wrap
     { initState with inList := true, listItems := [str "a"] }
     (str "more words") [] (str "a") rfl rfl rfl rfl
     (by decide) (by decide) (by decide) (by decide) (by decide) (by decide)⟩

/-- C5: the two-line table input yields exactly one `table` block with the
expected headers and single data row; and whenever a table accumulator
flushes having gathered exactly one row, the emitted block's `rows` is empty
(the sole row becomes the headers). -/
theorem table_block_shape :
    parseContentToJSON (str "| H1 | H2 |\n| x | y |") =
      [{ type := .table,
         headers := some [str "H1", str "H2"],
         rows := some [[str "x", str "y"]],
         rawContent := some (str "| H1 | H2 |\n| x | y |") }] ∧
    ∀ r : List Str, (mkTableBlock [r]).rows = some [] :=
  ⟨by decide, fun _ => rfl⟩

/-- C6: the fenced input ` ```js\ncode here\n``` ` yields exactly one `code`
block with language `js` and text `code here`; with a bare ` ``` ` opener the
`language` field is the empty string. -/
theorem code_block_shape :
    parseContentToJSON (str "```js\ncode here\n```") =
      [{ type := .code,
         rawContent := some (str "```js\ncode here\n```"),
         text := some (str "code here"),
         language := some (str "js") }] ∧
    parseContentToJSON (str "```\ncode here\n```") =
      [{ type := .code,
         rawContent := some (str "```\ncode here\n```"),
         text := some (str "code here"),
         language := some [] }] := by decide

/-- C7: on a string in which none of the four inline patterns matches,
`parseFormattedText` returns the single unformatted span holding the whole
input. -/
theorem plain_string_single_span (s : Str) (h : collectMatches s = []) :
    parseFormattedText s = [{ text := s }] :=
  pft_no_matches s h

theorem plain_string_single_span_witness :
    collectMatches (str "hello world") = [] ∧
    parseFormattedText (str "hello world") = [{ text := str "hello world" }] :=
  ⟨by decide, plain_string_single_span (str "hello world") (by decide)⟩

/-- C8: two invocations of `parseContentToJSON` on the same string return
structurally equal block lists.  In the source every mutable accumulator
(and every stateful regex object) is created afresh inside the function, so
the parser embeds as a pure function of its input, on which the two runs
coincide definitionally. -/
theorem parse_deterministic (md : Str) : (runTwice md).1 = (runTwice md).2 := rfl

/-- C9: every block emitted by `parseContentToJSON` has `rawContent`
populated, and the reverse reconstruction of the update form applied to the
singleton list returns exactly that `rawContent`. -/
theorem roundtrip_rawContent (md : Str) (b : ContentBlock)
    (hb : b ∈ parseContentToJSON md) :
    b.rawContent = some (parseBlocksToMarkdown [b]) := by
  obtain ⟨r, hr⟩ := Option.isSome_iff_exists.mp (parse_raw_isSome md b hb)
  rw [hr]
  simp [parseBlocksToMarkdown, joinWith, hr]

theorem roundtrip_rawContent_witness :
    mkTextBlock (str "hello") ∈ parseContentToJSON (str "hello") ∧
    (mkTextBlock (str "hello")).rawContent =
      some (parseBlocksToMarkdown [mkTextBlock (str "hello")]) :=
  ⟨by decide, roundtrip_rawContent (str "hello") _ (by decide)⟩

/-- C10: `parseFormattedText` never returns an empty sequence — the
whole-input fallback span guarantees at least one element — and on the empty
string it returns exactly one span whose text is empty. -/
theorem parseFormattedText_never_empty :
    (∀ s : Str, parseFormattedText s ≠ []) ∧
    parseFormattedText (str "") = [{ text := str "" }] := by
  constructor
  · intro s
    by_cases hp : (walkMatches s (sortByIndex (collectMatches s)) 0).length > 0
    · simp only [parseFormattedText, if_pos hp]
      exact List.ne_nil_of_length_pos hp
    · simp only [parseFormattedText, if_neg hp]
      simp
  · decide

end Blog
